import Mathlib

/-!
Shallow embedding of `redis_key_analyzer.py` (RedisKeyAnalyzer) and proofs of
the specification claims about it.  Keys are modelled as Lean `String`s
(lists of characters); the embedding of the Python string operations
(`split`, `join`, `isdigit`, `isupper`, `isalnum`, `replace`, slicing)
follows Python semantics on ASCII text, which is the alphabet of the keys
the analyzer handles.
-/

namespace RedisKeyAnalyzer

/-- Python `s.split(c)` on a single-character separator: splits at every
occurrence of `c`, producing `count c + 1` pieces; `"".split(c) = [""]`. -/
def splitChar (c : Char) : List Char → List (List Char)
  | [] => [[]]
  | x :: xs =>
    if x = c then [] :: splitChar c xs
    else
      match splitChar c xs with
      | [] => [[x]]
      | p :: ps => (x :: p) :: ps

/-- Python `c.join(parts)` on a single-character separator. -/
def joinChar (c : Char) : List (List Char) → List Char
  | [] => []
  | [p] => p
  | p :: ps => p ++ c :: joinChar c ps

/-- Python `s.isdigit()` (ASCII): non-empty and every character a digit. -/
def pyIsdigit (s : List Char) : Bool :=
  !s.isEmpty && s.all Char.isDigit

/-- Python `s.isupper()` (ASCII): at least one cased character, and every
cased character is upper-case.  Uncased characters (digits, punctuation)
are ignored, so e.g. `"AB1".isupper()` is `true`. -/
def pyIsupper (s : List Char) : Bool :=
  s.any Char.isAlpha && s.all (fun c => !c.isLower)

/-- Python `s.isalnum()` (ASCII): non-empty and every character a letter
or a digit. -/
def pyIsalnum (s : List Char) : Bool :=
  !s.isEmpty && s.all (fun c => c.isAlpha || c.isDigit)

/-- Python `s.replace('_', '').replace('-', '')`: drop every underscore
and hyphen. -/
def stripUnderscoreHyphen (s : List Char) : List Char :=
  s.filter (fun c => !(c = '_' || c = '-'))

/-- `RedisKeyAnalyzer._is_uuid`: length 36, exactly four hyphens, and the
five hyphen-delimited groups have lengths 8, 4, 4, 4, 12. -/
def is_uuid (s : List Char) : Bool :=
  if s.length = 36 ∧ s.count '-' = 4 then
    let parts := splitChar '-' s
    parts.length = 5 ∧
      (parts.getD 0 []).length = 8 ∧ (parts.getD 1 []).length = 4 ∧
      (parts.getD 2 []).length = 4 ∧ (parts.getD 3 []).length = 4 ∧
      (parts.getD 4 []).length = 12
  else false

/-- The sku_id rule of `_extract_pattern` (line 73):
`parts[-1].isdigit() and len(parts[-1]) > 6`. -/
def isSkuSeg (s : List Char) : Bool :=
  pyIsdigit s && decide (6 < s.length)

/-- The set_code rule of `_extract_pattern` (line 76):
`len(parts[-1]) in [3, 4] and parts[-1].isupper()`. -/
def isSetCodeSeg (s : List Char) : Bool :=
  (s.length = 3 || s.length = 4) && pyIsupper s

/-- The generic id rule of `_extract_pattern` (line 79):
`parts[-1].replace('_', '').replace('-', '').isalnum()`. -/
def isIdSeg (s : List Char) : Bool :=
  pyIsalnum (stripUnderscoreHyphen s)

/-- `RedisKeyAnalyzer._extract_pattern` on the character sequence of the
key: split on `:`; with at least two segments, classify the final segment
by the first matching rule (uuid, then sku_id, then set_code, then id) and
replace it by the rule's placeholder; otherwise return the key unchanged. -/
def extractCore (key : List Char) : List Char :=
  let parts := splitChar ':' key
  if 2 ≤ parts.length then
    let last := parts.getLastD []
    if is_uuid last then
      joinChar ':' parts.dropLast ++ (':' :: "{uuid}".data)
    else if isSkuSeg last then
      joinChar ':' parts.dropLast ++ (':' :: "{sku_id}".data)
    else if isSetCodeSeg last then
      joinChar ':' parts.dropLast ++ (':' :: "{set_code}".data)
    else if isIdSeg last then
      joinChar ':' parts.dropLast ++ (':' :: "{id}".data)
    else key
  else key

/-- `RedisKeyAnalyzer._extract_pattern` as a function on `String`. -/
def extract_pattern (key : String) : String :=
  ⟨extractCore key.data⟩

/-- The colon-separated segments of a key. -/
def segments (key : String) : List (List Char) :=
  splitChar ':' key.data

/-- The final colon-separated segment of a key. -/
def lastSeg (key : String) : List Char :=
  (segments key).getLastD []

/-- The spec's characterization of a syntactically valid UUID: exactly 36
characters and five hyphen-delimited groups of lengths 8, 4, 4, 4, 12. -/
def specUuid (s : List Char) : Prop :=
  s.length = 36 ∧
    (splitChar '-' s).length = 5 ∧
    ((splitChar '-' s).getD 0 []).length = 8 ∧
    ((splitChar '-' s).getD 1 []).length = 4 ∧
    ((splitChar '-' s).getD 2 []).length = 4 ∧
    ((splitChar '-' s).getD 3 []).length = 4 ∧
    ((splitChar '-' s).getD 4 []).length = 12

instance (s : List Char) : Decidable (specUuid s) := by
  unfold specUuid; infer_instance


/-! ### Embedding of `_get_sample_value` and `_analyze_pattern`

The analyzer's interactions with the store (and with `json.loads`) are
modelled by an oracle of functions, one per external call the source makes;
`Except.error` models the call raising an exception, carrying its text. -/

/-- Result of `json.loads`: a decoded Python string, or any other decoded
Python value carried together with its `str()` rendering (the only two
observations the source makes of a decoded value are `isinstance(·, str)`
and `str(·)`). -/
inductive PyJson where
  | pstr (s : String)
  | other (rendering : String)
deriving DecidableEq

/-- Python `str(·)` on the optional string returned by `GET`:
`str(None) = "None"`. -/
def pyStr : Option String → String
  | none => "None"
  | some s => s

/-- Python string slicing `s[:n]`. -/
def pySlice (s : String) (n : Nat) : String :=
  ⟨s.data.take n⟩

/-- Every external call `_get_sample_value` / `_analyze_pattern` makes.
`lrange3`, `sscan3`, `zrange3` are the bounded calls
`lrange(key, 0, 2)`, `sscan_iter(key, count=3)`, and
`zrange(key, 0, 2, withscores=True)`. -/
structure StoreOracle where
  typeOf : String → Except String String
  memory_usage : String → Except String (Option Nat)
  ttl : String → Except String Int
  get : String → Except String (Option String)
  hgetall : String → Except String (List (String × String))
  llen : String → Except String Nat
  lrange3 : String → Except String (List String)
  scard : String → Except String Nat
  sscan3 : String → Except String (List String)
  zcard : String → Except String Nat
  zrange3 : String → Except String (List (String × Rat))
  xlen : String → Except String Nat
  jsonLoads : Option String → Except String PyJson

/-- The dictionaries `_get_sample_value` returns, one constructor per
branch of the source's type dispatch; `errRecord` is the
`{'type': key_type, 'error': str(e)}` dictionary of the final `except`. -/
inductive SampleValue where
  | jsonPreview (preview : String)
  | stringPreview (preview : String)
  | hashSample (field_count : Nat) (sample_fields : List (String × String))
  | listSample (length : Nat) (sample_items : List String)
  | setSample (size : Nat) (sample_members : List String)
  | zsetSample (size : Nat) (sample_members : List (String × Rat))
  | streamSample (length : Nat)
  | unknownType (key_type : String)
  | errRecord (key_type : String) (error : String)
deriving DecidableEq

/-- `RedisKeyAnalyzer._get_sample_value`.  The source's outer `try/except`
turns every raising store call into an `errRecord`; the inner `try/except`
of the string branch degrades a failed JSON decode to a truncated raw
preview. -/
def get_sample_value (o : StoreOracle) (key : String) (key_type : String) :
    SampleValue :=
  if key_type = "string" then
    match o.get key with
    | .error e => .errRecord key_type e
    | .ok value =>
      match o.jsonLoads value with
      | .ok (.pstr s) => .jsonPreview (pySlice s 200)
      | .ok (.other r) => .jsonPreview (pySlice r 200)
      | .error _ => .stringPreview (pySlice (pyStr value) 200)
  else if key_type = "hash" then
    match o.hgetall key with
    | .error e => .errRecord key_type e
    | .ok fields => .hashSample fields.length (fields.take 3)
  else if key_type = "list" then
    match o.llen key with
    | .error e => .errRecord key_type e
    | .ok len =>
      match o.lrange3 key with
      | .error e => .errRecord key_type e
      | .ok sample => .listSample len sample
  else if key_type = "set" then
    match o.scard key with
    | .error e => .errRecord key_type e
    | .ok size =>
      match o.sscan3 key with
      | .error e => .errRecord key_type e
      | .ok sample => .setSample size (sample.take 3)
  else if key_type = "zset" then
    match o.zcard key with
    | .error e => .errRecord key_type e
    | .ok size =>
      match o.zrange3 key with
      | .error e => .errRecord key_type e
      | .ok sample => .zsetSample size sample
  else if key_type = "stream" then
    match o.xlen key with
    | .error e => .errRecord key_type e
    | .ok len => .streamSample len
  else .unknownType key_type

/-- The `ttl_info` dictionary of `_analyze_pattern`. -/
structure TtlInfo where
  with_ttl : Nat
  no_ttl : Nat
  expired : Nat
deriving DecidableEq, Inhabited

/-- One entry of `sample_data`: the per-key dictionary appended after all
per-key calls succeeded. -/
structure SampleRecord where
  key : String
  key_type : String
  memory_bytes : Option Nat
  ttl : Int
  sample_value : SampleValue
deriving DecidableEq

/-- The accumulator of `_analyze_pattern`'s sampling loop.  `types` is the
multiset underlying the `Counter` (the order of insertion is kept; the
histogram is read off with `List.count`). -/
structure AnalyzeState where
  types : List String
  sample_data : List SampleRecord
  total_memory : Nat
  ttl_info : TtlInfo
deriving DecidableEq

/-- One iteration of the sampling loop of `_analyze_pattern`.  A raising
`type(key)` skips the key entirely; the type tally and the inner
`memory_usage` accounting happen before the `ttl(key)` call, so a raising
`ttl(key)` (caught by the outer `except ... continue`) leaves them in
place while the key contributes no sample record. -/
def analyze_step (o : StoreOracle) (st : AnalyzeState) (key : String) :
    AnalyzeState :=
  match o.typeOf key with
  | .error _ => st
  | .ok key_type =>
    let types := st.types ++ [key_type]
    let memTotal : Option Nat × Nat :=
      match o.memory_usage key with
      | .error _ => (none, st.total_memory)
      | .ok m => (m, st.total_memory + m.getD 0)
    match o.ttl key with
    | .error _ => { st with types := types, total_memory := memTotal.2 }
    | .ok ttl =>
      let ti := st.ttl_info
      let ti' : TtlInfo :=
        if ttl = -1 then { ti with no_ttl := ti.no_ttl + 1 }
        else if ttl = -2 then { ti with expired := ti.expired + 1 }
        else { ti with with_ttl := ti.with_ttl + 1 }
      { types := types
        sample_data := st.sample_data ++
          [⟨key, key_type, memTotal.1, ttl, get_sample_value o key key_type⟩]
        total_memory := memTotal.2
        ttl_info := ti' }

/-- The result dictionary of `_analyze_pattern`. -/
structure PatternReport where
  pattern : String
  total_keys : Nat
  sample_size : Nat
  types : List String
  total_memory_bytes : Nat
  avg_memory_bytes : Rat
  ttl_info : TtlInfo
  sample_keys : List String
  sample_data : List SampleRecord
deriving DecidableEq, Inhabited

/-- `keys[:sample_size] if len(keys) > sample_size else keys`. -/
def sampledKeys (keys : List String) (sample_size : Nat) : List String :=
  if sample_size < keys.length then keys.take sample_size else keys

/-- `RedisKeyAnalyzer._analyze_pattern`: an empty bucket returns `{}`
(modelled as `none`); otherwise the first `sample_size` keys are profiled
and the aggregate report assembled. -/
def analyze_pattern (o : StoreOracle) (pattern : String) (keys : List String)
    (sample_size : Nat) : Option PatternReport :=
  if keys.isEmpty then none
  else
    let st := (sampledKeys keys sample_size).foldl (analyze_step o)
      ⟨[], [], 0, ⟨0, 0, 0⟩⟩
    some
      { pattern := pattern
        total_keys := keys.length
        sample_size := st.sample_data.length
        types := st.types
        total_memory_bytes := st.total_memory
        avg_memory_bytes :=
          if st.sample_data.isEmpty then 0
          else (st.total_memory : Rat) / (st.sample_data.length : Rat)
        ttl_info := st.ttl_info
        sample_keys := (st.sample_data.take 5).map (fun s => s.key)
        sample_data := st.sample_data.take 3 }

/-- The value returned by a store call, `none` when the call raised. -/
def callOk {α : Type} : Except String α → Option α
  | .ok a => some a
  | .error _ => none

/-- A store on which every call succeeds (every key a 16-byte persistent
string) and JSON decoding fails. -/
def allOkStore : StoreOracle where
  typeOf _ := .ok "string"
  memory_usage _ := .ok (some 16)
  ttl _ := .ok (-1)
  get _ := .ok (some "v")
  hgetall _ := .ok []
  llen _ := .ok 0
  lrange3 _ := .ok []
  scard _ := .ok 0
  sscan3 _ := .ok []
  zcard _ := .ok 0
  zrange3 _ := .ok []
  xlen _ := .ok 0
  jsonLoads _ := .error "decode failure"

/-- Like `allOkStore`, but `MEMORY USAGE` succeeds only for key "a"
(100 bytes) and raises for every other key. -/
def memFailStore : StoreOracle :=
  { allOkStore with
    memory_usage := fun k =>
      if k = "a" then .ok (some 100) else .error "MEMORY USAGE unsupported" }

/-- Like `allOkStore`, but the TTL call raises for key "a". -/
def ttlFailStore : StoreOracle :=
  { allOkStore with
    ttl := fun k => if k = "a" then .error "connection timed out" else .ok (-1) }

/-- Like `allOkStore`, but `GET` raises. -/
def getFailStore : StoreOracle :=
  { allOkStore with get := fun _ => .error "connection reset" }

/-! ### Facts about `splitChar` and `joinChar` -/

theorem splitChar_ne_nil (c : Char) (s : List Char) : splitChar c s ≠ [] := by
  induction s with
  | nil => simp [splitChar]
  | cons x xs ih =>
    simp only [splitChar]
    split
    · simp
    · split
      · simp
      · simp

theorem not_mem_of_mem_splitChar {c : Char} {s p : List Char}
    (h : p ∈ splitChar c s) : c ∉ p := by
  induction s generalizing p with
  | nil =>
    simp only [splitChar, List.mem_singleton] at h
    subst h; simp
  | cons x xs ih =>
    simp only [splitChar] at h
    by_cases hx : x = c
    · rw [if_pos hx] at h
      rcases List.mem_cons.mp h with rfl | h
      · simp
      · exact ih h
    · rw [if_neg hx] at h
      cases hsp : splitChar c xs with
      | nil => exact absurd hsp (splitChar_ne_nil c xs)
      | cons q qs =>
        rw [hsp] at h
        have hq : q ∈ splitChar c xs := by rw [hsp]; exact List.mem_cons_self q qs
        rcases List.mem_cons.mp h with rfl | h
        · intro hc
          rcases List.mem_cons.mp hc with rfl | hc
          · exact hx rfl
          · exact ih hq hc
        · exact ih (by rw [hsp]; exact List.mem_cons_of_mem q h)

theorem joinChar_cons_cons (c : Char) (x : Char) (q : List Char)
    (qs : List (List Char)) :
    joinChar c ((x :: q) :: qs) = x :: joinChar c (q :: qs) := by
  cases qs <;> simp [joinChar]

theorem joinChar_nil_cons (c : Char) (q : List Char) (qs : List (List Char)) :
    joinChar c ([] :: q :: qs) = c :: joinChar c (q :: qs) := by
  simp [joinChar]

theorem joinChar_splitChar (c : Char) (s : List Char) :
    joinChar c (splitChar c s) = s := by
  induction s with
  | nil => simp [splitChar, joinChar]
  | cons x xs ih =>
    simp only [splitChar]
    by_cases hx : x = c
    · rw [if_pos hx]
      cases hsp : splitChar c xs with
      | nil => exact absurd hsp (splitChar_ne_nil c xs)
      | cons q qs =>
        rw [hsp] at ih
        rw [joinChar_nil_cons, ih, hx]
    · rw [if_neg hx]
      cases hsp : splitChar c xs with
      | nil => exact absurd hsp (splitChar_ne_nil c xs)
      | cons q qs =>
        rw [hsp] at ih
        rw [joinChar_cons_cons, ih]

theorem splitChar_of_not_mem {c : Char} {p : List Char} (hp : c ∉ p) :
    splitChar c p = [p] := by
  induction p with
  | nil => simp [splitChar]
  | cons x xs ih =>
    have hx : x ≠ c := by rintro rfl; exact hp (List.mem_cons_self x xs)
    have hxs : c ∉ xs := fun h => hp (List.mem_cons_of_mem x h)
    simp only [splitChar, if_neg hx, ih hxs]

theorem splitChar_append_sep {c : Char} {p : List Char} (hp : c ∉ p)
    (t : List Char) :
    splitChar c (p ++ c :: t) = p :: splitChar c t := by
  induction p with
  | nil => simp [splitChar]
  | cons x xs ih =>
    have hx : x ≠ c := by rintro rfl; exact hp (List.mem_cons_self x xs)
    have hxs : c ∉ xs := fun h => hp (List.mem_cons_of_mem x h)
    simp only [List.cons_append, splitChar, if_neg hx, List.append_eq, ih hxs]

theorem splitChar_joinChar (c : Char) (ps : List (List Char)) (hne : ps ≠ [])
    (hmem : ∀ p ∈ ps, c ∉ p) :
    splitChar c (joinChar c ps) = ps := by
  induction ps with
  | nil => exact absurd rfl hne
  | cons p ps ih =>
    cases ps with
    | nil =>
      simp only [joinChar]
      exact splitChar_of_not_mem (hmem p (List.mem_cons_self p []))
    | cons q qs =>
      have hjoin : joinChar c (p :: q :: qs) = p ++ c :: joinChar c (q :: qs) := by
        simp [joinChar]
      rw [hjoin, splitChar_append_sep (hmem p (List.mem_cons_self p _))]
      rw [ih (by simp) (fun r hr => hmem r (List.mem_cons_of_mem p hr))]

theorem length_splitChar (c : Char) (s : List Char) :
    (splitChar c s).length = s.count c + 1 := by
  induction s with
  | nil => simp [splitChar]
  | cons x xs ih =>
    simp only [splitChar]
    by_cases hx : x = c
    · rw [if_pos hx]
      simp [List.count_cons, hx, ih]
    · rw [if_neg hx]
      cases hsp : splitChar c xs with
      | nil => exact absurd hsp (splitChar_ne_nil c xs)
      | cons q qs =>
        rw [hsp] at ih
        simp only [List.length_cons] at ih ⊢
        simp [List.count_cons, hx, ih]

theorem joinChar_append_singleton (c : Char) (ps : List (List Char))
    (hne : ps ≠ []) (q : List Char) :
    joinChar c (ps ++ [q]) = joinChar c ps ++ c :: q := by
  induction ps with
  | nil => exact absurd rfl hne
  | cons p ps ih =>
    cases ps with
    | nil => simp [joinChar]
    | cons r rs =>
      have h1 : joinChar c ((p :: r :: rs) ++ [q]) =
          p ++ c :: joinChar c ((r :: rs) ++ [q]) := by
        simp [joinChar]
      have h2 : joinChar c (p :: r :: rs) = p ++ c :: joinChar c (r :: rs) := by
        simp [joinChar]
      rw [h1, h2, ih (by simp)]
      simp

theorem getLastD_append_singleton (ps : List (List Char)) (q d : List Char) :
    (ps ++ [q]).getLastD d = q := by
  induction ps with
  | nil => rfl
  | cons p ps ih =>
    cases ps with
    | nil => rfl
    | cons r rs => simpa using ih

theorem dropLast_append_getLastD {ps : List (List Char)} (h : ps ≠ [])
    (d : List Char) : ps.dropLast ++ [ps.getLastD d] = ps := by
  induction ps with
  | nil => exact absurd rfl h
  | cons p ps ih =>
    cases ps with
    | nil => rfl
    | cons r rs => simpa using ih (by simp)

/-! ### Branch lemmas for `extractCore` -/

theorem extractCore_short {key : List Char}
    (h : ¬ 2 ≤ (splitChar ':' key).length) : extractCore key = key := by
  simp only [extractCore, if_neg h]

theorem extractCore_uuid {key : List Char}
    (h2 : 2 ≤ (splitChar ':' key).length)
    (hu : is_uuid ((splitChar ':' key).getLastD []) = true) :
    extractCore key =
      joinChar ':' (splitChar ':' key).dropLast ++ (':' :: "{uuid}".data) := by
  simp only [extractCore, if_pos h2, hu, if_pos]

theorem extractCore_sku {key : List Char}
    (h2 : 2 ≤ (splitChar ':' key).length)
    (hu : is_uuid ((splitChar ':' key).getLastD []) = false)
    (hsku : isSkuSeg ((splitChar ':' key).getLastD []) = true) :
    extractCore key =
      joinChar ':' (splitChar ':' key).dropLast ++ (':' :: "{sku_id}".data) := by
  simp only [extractCore, if_pos h2, hu, hsku, if_pos, Bool.false_eq_true,
    if_false]

theorem extractCore_set {key : List Char}
    (h2 : 2 ≤ (splitChar ':' key).length)
    (hu : is_uuid ((splitChar ':' key).getLastD []) = false)
    (hsku : isSkuSeg ((splitChar ':' key).getLastD []) = false)
    (hset : isSetCodeSeg ((splitChar ':' key).getLastD []) = true) :
    extractCore key =
      joinChar ':' (splitChar ':' key).dropLast ++ (':' :: "{set_code}".data) := by
  simp only [extractCore, if_pos h2, hu, hsku, hset, if_pos, Bool.false_eq_true,
    if_false]

theorem extractCore_generic {key : List Char}
    (h2 : 2 ≤ (splitChar ':' key).length)
    (hu : is_uuid ((splitChar ':' key).getLastD []) = false)
    (hsku : isSkuSeg ((splitChar ':' key).getLastD []) = false)
    (hset : isSetCodeSeg ((splitChar ':' key).getLastD []) = false)
    (hid : isIdSeg ((splitChar ':' key).getLastD []) = true) :
    extractCore key =
      joinChar ':' (splitChar ':' key).dropLast ++ (':' :: "{id}".data) := by
  simp only [extractCore, if_pos h2, hu, hsku, hset, hid, if_pos,
    Bool.false_eq_true, if_false]

theorem extractCore_literal {key : List Char}
    (hu : is_uuid ((splitChar ':' key).getLastD []) = false)
    (hsku : isSkuSeg ((splitChar ':' key).getLastD []) = false)
    (hset : isSetCodeSeg ((splitChar ':' key).getLastD []) = false)
    (hid : isIdSeg ((splitChar ':' key).getLastD []) = false) :
    extractCore key = key := by
  simp only [extractCore, hu, hsku, hset, hid, Bool.false_eq_true, if_false,
    ite_self]

/-- A key of the form `prefix-segments ++ ":" ++ placeholder` whose final
segment matches no classification rule is a fixed point of `extractCore`. -/
theorem extractCore_placeholder_fixed (pre : List (List Char)) (hpre : pre ≠ [])
    (hmem : ∀ p ∈ pre, ':' ∉ p) (ph : List Char) (hph : ':' ∉ ph)
    (hu : is_uuid ph = false) (hsku : isSkuSeg ph = false)
    (hset : isSetCodeSeg ph = false) (hid : isIdSeg ph = false) :
    extractCore (joinChar ':' pre ++ ':' :: ph) = joinChar ':' pre ++ ':' :: ph := by
  have hjoin : joinChar ':' pre ++ ':' :: ph = joinChar ':' (pre ++ [ph]) :=
    (joinChar_append_singleton ':' pre hpre ph).symm
  have hsplit : splitChar ':' (joinChar ':' (pre ++ [ph])) = pre ++ [ph] := by
    refine splitChar_joinChar ':' (pre ++ [ph]) (by simp) ?_
    intro p hp
    rcases List.mem_append.mp hp with h | h
    · exact hmem p h
    · rw [List.mem_singleton.mp h]; exact hph
  have hlast : ((splitChar ':' (joinChar ':' (pre ++ [ph]))).getLastD []) = ph := by
    rw [hsplit, getLastD_append_singleton]
  rw [hjoin]
  exact extractCore_literal (by rw [hlast]; exact hu)
    (by rw [hlast]; exact hsku) (by rw [hlast]; exact hset)
    (by rw [hlast]; exact hid)

theorem dropLast_segments_ne_nil {key : String}
    (h2 : 2 ≤ (segments key).length) : (segments key).dropLast ≠ [] := by
  intro hnil
  have hlen := List.length_dropLast (segments key)
  rw [hnil] at hlen
  simp only [List.length_nil] at hlen
  simp only [segments] at hlen h2
  omega

/-- A key with at least two segments is its joined head segments, a colon,
and its final segment. -/
theorem key_eq_join (key : String) (h2 : 2 ≤ (segments key).length) :
    key.data = joinChar ':' (segments key).dropLast ++ ':' :: lastSeg key := by
  have hne : segments key ≠ [] := splitChar_ne_nil ':' key.data
  have hrec : (segments key).dropLast ++ [lastSeg key] = segments key :=
    dropLast_append_getLastD hne []
  have hpre : (segments key).dropLast ≠ [] := dropLast_segments_ne_nil h2
  conv_lhs => rw [← joinChar_splitChar ':' key.data]
  rw [show splitChar ':' key.data = (segments key).dropLast ++ [lastSeg key] from
    hrec.symm]
  exact joinChar_append_singleton ':' _ hpre _

theorem extractCore_idem (key : List Char) :
    extractCore (extractCore key) = extractCore key := by
  by_cases h2 : 2 ≤ (splitChar ':' key).length
  · have hpre : (splitChar ':' key).dropLast ≠ [] := by
      intro hnil
      have hlen := List.length_dropLast (splitChar ':' key)
      rw [hnil] at hlen
      simp only [List.length_nil] at hlen
      omega
    have hmem : ∀ p ∈ (splitChar ':' key).dropLast, ':' ∉ p := fun p hp =>
      not_mem_of_mem_splitChar (List.mem_of_mem_dropLast hp)
    by_cases hu : is_uuid ((splitChar ':' key).getLastD []) = true
    · rw [extractCore_uuid h2 hu]
      exact extractCore_placeholder_fixed _ hpre hmem _ (by decide) (by decide)
        (by decide) (by decide) (by decide)
    · rw [Bool.not_eq_true] at hu
      by_cases hsku : isSkuSeg ((splitChar ':' key).getLastD []) = true
      · rw [extractCore_sku h2 hu hsku]
        exact extractCore_placeholder_fixed _ hpre hmem _ (by decide) (by decide)
          (by decide) (by decide) (by decide)
      · rw [Bool.not_eq_true] at hsku
        by_cases hset : isSetCodeSeg ((splitChar ':' key).getLastD []) = true
        · rw [extractCore_set h2 hu hsku hset]
          exact extractCore_placeholder_fixed _ hpre hmem _ (by decide) (by decide)
            (by decide) (by decide) (by decide)
        · rw [Bool.not_eq_true] at hset
          by_cases hid : isIdSeg ((splitChar ':' key).getLastD []) = true
          · rw [extractCore_generic h2 hu hsku hset hid]
            exact extractCore_placeholder_fixed _ hpre hmem _ (by decide)
              (by decide) (by decide) (by decide) (by decide)
          · rw [Bool.not_eq_true] at hid
            have h := extractCore_literal hu hsku hset hid
            rw [h]
            exact h
  · have h := extractCore_short h2
    rw [h]
    exact h

end RedisKeyAnalyzer

namespace RedisKeyAnalyzer

example : extract_pattern "set:ABC" = "set:{set_code}" := by decide
example : extract_pattern "set:ABCD:cards" = "set:ABCD:{id}" := by decide
example : extract_pattern "set:AB1" = "set:{set_code}" := by decide
example : extract_pattern "plainkey" = "plainkey" := by decide
example : extract_pattern "card:a1b2c3d4-e5f6-7890-abcd-ef1234567890" = "card:{uuid}" := by
  decide
example : extract_pattern "sku:1234567" = "sku:{sku_id}" := by decide
example : extract_pattern "card:oracle:xyz123" = "card:oracle:{id}" := by decide

/-- The code's `_is_uuid` test agrees with the spec's characterization:
the extra `count('-') == 4` conjunct is implied by the five-group shape. -/
theorem is_uuid_iff_specUuid (s : List Char) : is_uuid s = true ↔ specUuid s := by
  unfold is_uuid specUuid
  by_cases hc : s.length = 36 ∧ s.count '-' = 4
  · rw [if_pos hc]
    simp only [decide_eq_true_eq]
    constructor
    · rintro ⟨h5, hg⟩
      exact ⟨hc.1, h5, hg⟩
    · rintro ⟨_, h5, hg⟩
      exact ⟨h5, hg⟩
  · rw [if_neg hc]
    simp only [Bool.false_eq_true, false_iff]
    rintro ⟨h36, h5, _⟩
    have hcount := length_splitChar '-' s
    exact hc ⟨h36, by omega⟩

/-! ### Claim theorems about pattern generalization -/

/-- C9: for every key with fewer than 2 colon-delimited segments,
generalization returns the key itself unchanged. -/
theorem short_key_unchanged (key : String)
    (h : (segments key).length < 2) : extract_pattern key = key := by
  unfold extract_pattern
  rw [extractCore_short (Nat.not_le.mpr h)]

theorem short_key_unchanged_witness :
    (segments "plainkey").length < 2 ∧ extract_pattern "plainkey" = "plainkey" :=
  ⟨by decide, short_key_unchanged "plainkey" (by decide)⟩

/-- C8: for every key with at least 2 colon-delimited segments whose final
segment is a syntactically valid UUID (36 characters, five hyphen-delimited
groups of lengths 8-4-4-4-12), the generalized pattern is the head segments
joined by `:`, preserved verbatim, followed by `:{uuid}`. -/
theorem uuid_generalization (key : String)
    (h2 : 2 ≤ (segments key).length)
    (hu : specUuid (lastSeg key)) :
    extract_pattern key =
      ⟨joinChar ':' (segments key).dropLast ++ ':' :: "{uuid}".data⟩ := by
  unfold extract_pattern
  rw [extractCore_uuid h2 ((is_uuid_iff_specUuid _).mpr hu)]
  exact rfl

theorem uuid_generalization_witness :
    2 ≤ (segments "card:a1b2c3d4-e5f6-7890-abcd-ef1234567890").length ∧
    specUuid (lastSeg "card:a1b2c3d4-e5f6-7890-abcd-ef1234567890") ∧
    extract_pattern "card:a1b2c3d4-e5f6-7890-abcd-ef1234567890" = "card:{uuid}" :=
  ⟨by decide, by decide, by
    rw [uuid_generalization _ (by decide) (by decide)]
    decide⟩

/-- C4: for every key with at least 2 colon-delimited segments, the final
segment is classified by the first matching rule in the fixed precedence
order uuid, then sku_id, then set_code, then id. -/
theorem rule_precedence_first_match (key : String)
    (h2 : 2 ≤ (segments key).length) :
    (is_uuid (lastSeg key) = true →
      extract_pattern key =
        ⟨joinChar ':' (segments key).dropLast ++ ':' :: "{uuid}".data⟩) ∧
    (is_uuid (lastSeg key) = false → isSkuSeg (lastSeg key) = true →
      extract_pattern key =
        ⟨joinChar ':' (segments key).dropLast ++ ':' :: "{sku_id}".data⟩) ∧
    (is_uuid (lastSeg key) = false → isSkuSeg (lastSeg key) = false →
      isSetCodeSeg (lastSeg key) = true →
      extract_pattern key =
        ⟨joinChar ':' (segments key).dropLast ++ ':' :: "{set_code}".data⟩) ∧
    (is_uuid (lastSeg key) = false → isSkuSeg (lastSeg key) = false →
      isSetCodeSeg (lastSeg key) = false → isIdSeg (lastSeg key) = true →
      extract_pattern key =
        ⟨joinChar ':' (segments key).dropLast ++ ':' :: "{id}".data⟩) := by
  refine ⟨fun hu => ?_, fun hu hsku => ?_, fun hu hsku hset => ?_,
    fun hu hsku hset hid => ?_⟩
  · unfold extract_pattern; rw [extractCore_uuid h2 hu]; exact rfl
  · unfold extract_pattern; rw [extractCore_sku h2 hu hsku]; exact rfl
  · unfold extract_pattern; rw [extractCore_set h2 hu hsku hset]; exact rfl
  · unfold extract_pattern; rw [extractCore_generic h2 hu hsku hset hid]; exact rfl

theorem rule_precedence_first_match_witness :
    isSkuSeg (lastSeg "sku:1234567") = true ∧
    isIdSeg (lastSeg "sku:1234567") = true ∧
    extract_pattern "sku:1234567" = "sku:{sku_id}" :=
  ⟨by decide, by decide, by
    rw [(rule_precedence_first_match "sku:1234567" (by decide)).2.1
      (by decide) (by decide)]
    decide⟩

/-- C10: pattern generalization is idempotent; every produced placeholder
contains braces and so matches no classification rule. -/
theorem extract_pattern_idem (key : String) :
    extract_pattern (extract_pattern key) = extract_pattern key := by
  unfold extract_pattern
  exact congrArg String.mk (extractCore_idem key.data)

/-- C2 counterexample: the three-segment key `set:ABCD:cards` does not
generalize to `set:{set_code}:cards`; only the terminal segment `cards` is
classified, so the code produces `set:ABCD:{id}`. -/
theorem set_code_scenario_cex :
    extract_pattern "set:ABCD:cards" ≠ "set:{set_code}:cards" ∧
    extract_pattern "set:ABCD:cards" = "set:ABCD:{id}" := by
  exact ⟨by decide, by decide⟩

/-- C2 amended: `set:ABC` generalizes to `set:{set_code}`; `set:ABCD:cards`
generalizes to `set:ABCD:{id}` — generalization applies only to the terminal
segment, so the middle segment `ABCD` is preserved verbatim and the terminal
segment `cards` is classified by the generic id rule. -/
theorem set_code_scenario_amended :
    extract_pattern "set:ABC" = "set:{set_code}" ∧
    extract_pattern "set:ABCD:cards" = "set:ABCD:{id}" := by
  exact ⟨by decide, by decide⟩

/-- C3 counterexample: the final segment `AB1` of `set:AB1` is not entirely
upper-case alphabetic (it contains a digit), is not a UUID and not an
all-digit token longer than 6 characters, yet the key is classified as
set_code, because Python `isupper` ignores uncased characters. -/
theorem set_code_rule_alpha_cex :
    2 ≤ (segments "set:AB1").length ∧
    is_uuid (lastSeg "set:AB1") = false ∧
    isSkuSeg (lastSeg "set:AB1") = false ∧
    extract_pattern "set:AB1" = "set:{set_code}" ∧
    ¬ ∀ c ∈ lastSeg "set:AB1", c.isAlpha ∧ c.isUpper := by
  exact ⟨by decide, by decide, by decide, by decide, by decide⟩

/-- C3 amended: for every key with at least 2 colon-delimited segments whose
final segment is not a UUID, not an all-digit token longer than 6 characters,
and not the literal `{set_code}`, the key is classified as set_code (pattern
= joined head segments plus `:{set_code}`) exactly when the final segment has
length 3 or 4 and satisfies Python `isupper`: it contains at least one letter
and no lower-case letter. -/
theorem set_code_rule_iff_isupper (key : String)
    (h2 : 2 ≤ (segments key).length)
    (hu : is_uuid (lastSeg key) = false)
    (hsku : isSkuSeg (lastSeg key) = false)
    (hlit : lastSeg key ≠ "{set_code}".data) :
    extract_pattern key =
        ⟨joinChar ':' (segments key).dropLast ++ ':' :: "{set_code}".data⟩ ↔
      ((lastSeg key).length = 3 ∨ (lastSeg key).length = 4) ∧
        pyIsupper (lastSeg key) = true := by
  constructor
  · intro hEq
    by_cases hset : isSetCodeSeg (lastSeg key) = true
    · have := hset
      simp only [isSetCodeSeg, Bool.and_eq_true, Bool.or_eq_true,
        decide_eq_true_eq] at this
      exact this
    · exfalso
      rw [Bool.not_eq_true] at hset
      have hdata : extractCore key.data =
          joinChar ':' (segments key).dropLast ++ ':' :: "{set_code}".data := by
        have := congrArg String.data hEq
        exact this
      by_cases hid : isIdSeg (lastSeg key) = true
      · rw [extractCore_generic h2 hu hsku hset hid] at hdata
        have htail : (':' :: "{id}".data : List Char) = ':' :: "{set_code}".data :=
          List.append_cancel_left hdata
        simp only [List.cons.injEq] at htail
        exact absurd htail.2 (by decide)
      · rw [Bool.not_eq_true] at hid
        rw [extractCore_literal hu hsku hset hid] at hdata
        rw [key_eq_join key h2] at hdata
        have htail : (':' :: lastSeg key : List Char) =
            ':' :: "{set_code}".data := List.append_cancel_left hdata
        simp only [List.cons.injEq] at htail
        exact hlit htail.2
  · rintro ⟨h34, hupper⟩
    have hset : isSetCodeSeg (lastSeg key) = true := by
      simp only [isSetCodeSeg, Bool.and_eq_true, Bool.or_eq_true,
        decide_eq_true_eq]
      exact ⟨h34, hupper⟩
    unfold extract_pattern
    rw [extractCore_set h2 hu hsku hset]
    exact rfl

theorem set_code_rule_iff_isupper_witness :
    2 ≤ (segments "set:KLD").length ∧
    is_uuid (lastSeg "set:KLD") = false ∧
    isSkuSeg (lastSeg "set:KLD") = false ∧
    lastSeg "set:KLD" ≠ "{set_code}".data ∧
    extract_pattern "set:KLD" = "set:{set_code}" :=
  ⟨by decide, by decide, by decide, by decide, by
    rw [(set_code_rule_iff_isupper "set:KLD" (by decide) (by decide) (by decide)
      (by decide)).mpr ⟨by decide, by decide⟩]
    decide⟩

/-! ### Claim theorems about `_analyze_pattern` and `_get_sample_value` -/

/-- C5: `total_keys` in the resulting report is always the true bucket
size, independent of `sample_size`; sampling never affects the count. -/
theorem total_keys_eq_bucket_size (o : StoreOracle) (pattern : String)
    (keys : List String) (sample_size : Nat) (r : PatternReport)
    (h : analyze_pattern o pattern keys sample_size = some r) :
    r.total_keys = keys.length := by
  unfold analyze_pattern at h
  by_cases hk : keys.isEmpty
  · rw [if_pos hk] at h
    exact absurd h (by simp)
  · rw [if_neg hk] at h
    rw [← Option.some.inj h]

theorem eq_some_getD {α : Type} (x : Option α) (d : α)
    (h : x.isSome = true) : x = some (x.getD d) := by
  cases x with
  | none => simp at h
  | some v => rfl

theorem total_keys_eq_bucket_size_witness :
    analyze_pattern allOkStore "card:{uuid}" (List.replicate 100 "card:1") 1 =
      some ((analyze_pattern allOkStore "card:{uuid}"
        (List.replicate 100 "card:1") 1).getD default) ∧
    ((analyze_pattern allOkStore "card:{uuid}"
        (List.replicate 100 "card:1") 1).getD default).total_keys = 100 := by
  have heq := eq_some_getD
    (analyze_pattern allOkStore "card:{uuid}" (List.replicate 100 "card:1") 1)
    default (by decide)
  refine ⟨heq, ?_⟩
  have h := total_keys_eq_bucket_size allOkStore "card:{uuid}"
    (List.replicate 100 "card:1") 1 _ heq
  simpa using h

/-- C1 counterexample: two profiled samples, only one with a measurable
memory estimate (100 bytes); the report's average is 100/2 = 50, dividing
by the number of successfully profiled samples — not 100/1 = 100, which
dividing by the count of non-absent memory estimates would give. -/
theorem avg_memory_denominator_cex :
    (analyze_pattern memFailStore "p" ["a", "b"] 10).map
        (fun r => (r.avg_memory_bytes, r.total_memory_bytes,
          (r.sample_data.filter (fun s => s.memory_bytes.isSome)).length)) =
      some (((100 : Nat) : Rat) / ((2 : Nat) : Rat), 100, 1) ∧
    ((100 : Nat) : Rat) / ((2 : Nat) : Rat) ≠
      ((100 : Nat) : Rat) / ((1 : Nat) : Rat) := by
  refine ⟨rfl, by norm_num⟩

/-- C1 amended: `avg_memory_bytes` is the accumulated memory sum (an
absent estimate contributing 0) divided by the number of successfully
profiled samples (`sample_size`), and 0 when no sample was profiled; the
denominator is not restricted to samples with a non-absent estimate. -/
theorem avg_memory_eq_total_div_sample_size (o : StoreOracle)
    (pattern : String) (keys : List String) (sample_size : Nat)
    (r : PatternReport)
    (h : analyze_pattern o pattern keys sample_size = some r) :
    r.avg_memory_bytes =
      if r.sample_size = 0 then 0
      else (r.total_memory_bytes : Rat) / (r.sample_size : Rat) := by
  unfold analyze_pattern at h
  by_cases hk : keys.isEmpty
  · rw [if_pos hk] at h
    exact absurd h (by simp)
  · rw [if_neg hk] at h
    rw [← Option.some.inj h]
    by_cases hs : ((sampledKeys keys sample_size).foldl (analyze_step o)
        ⟨[], [], 0, ⟨0, 0, 0⟩⟩).sample_data = []
    · simp [hs]
    · simp [hs, List.isEmpty_iff, List.length_eq_zero]

theorem avg_memory_eq_total_div_sample_size_witness :
    analyze_pattern memFailStore "p" ["a", "b"] 10 =
      some ((analyze_pattern memFailStore "p" ["a", "b"] 10).getD default) ∧
    ((analyze_pattern memFailStore "p" ["a", "b"]
        10).getD default).avg_memory_bytes =
      if ((analyze_pattern memFailStore "p" ["a", "b"]
          10).getD default).sample_size = 0
      then 0
      else (((analyze_pattern memFailStore "p"
          ["a", "b"] 10).getD default).total_memory_bytes : Rat) /
        (((analyze_pattern memFailStore "p" ["a", "b"]
          10).getD default).sample_size : Rat) := by
  have heq := eq_some_getD (analyze_pattern memFailStore "p" ["a", "b"] 10)
    default (by decide)
  exact ⟨heq,
    avg_memory_eq_total_div_sample_size memFailStore "p" ["a", "b"] 10 _ heq⟩

/-- C6 counterexample: profiling of key "a" raises at the TTL call; key
"b" is still profiled (sample record list `["b"]`), but the ValueShape
histogram counts the type of "a" as well — it excludes more than nothing
but not the failed sample, whose type was tallied before the failure. -/
theorem histogram_excludes_failed_cex :
    (analyze_pattern ttlFailStore "p" ["a", "b"] 10).map
        (fun r => (r.types.count "string", r.sample_size,
          r.sample_data.map (fun s => s.key))) = some (2, 1, ["b"]) ∧
    (2 : Nat) ≠ 1 := by
  exact ⟨by decide, by decide⟩

/-- Invariant of the sampling loop: the type tally collects exactly the
keys whose type call succeeded, and a key becomes a sample record exactly
when its type and TTL calls both succeeded. -/
theorem foldl_analyze_step (o : StoreOracle) (ks : List String)
    (st : AnalyzeState) :
    (ks.foldl (analyze_step o) st).types =
        st.types ++ ks.filterMap (fun k => callOk (o.typeOf k)) ∧
    (ks.foldl (analyze_step o) st).sample_data.length =
        st.sample_data.length +
          (ks.filter (fun k =>
            (callOk (o.typeOf k)).isSome && (callOk (o.ttl k)).isSome)).length := by
  induction ks generalizing st with
  | nil => simp
  | cons k ks ih =>
    cases ht : o.typeOf k with
    | error e =>
      have hstep : analyze_step o st k = st := by
        simp [analyze_step, ht]
      constructor
      · rw [List.foldl_cons, hstep, (ih st).1]
        simp [List.filterMap_cons, ht, callOk]
      · rw [List.foldl_cons, hstep, (ih st).2]
        simp [List.filter_cons, ht, callOk]
    | ok t =>
      cases htt : o.ttl k with
      | error e =>
        have hstep : (analyze_step o st k).types = st.types ++ [t] ∧
            (analyze_step o st k).sample_data = st.sample_data := by
          simp [analyze_step, ht, htt]
        constructor
        · rw [List.foldl_cons, (ih (analyze_step o st k)).1, hstep.1]
          simp [List.filterMap_cons, ht, callOk]
        · rw [List.foldl_cons, (ih (analyze_step o st k)).2, hstep.2]
          simp [List.filter_cons, ht, htt, callOk]
      | ok ttlv =>
        have hstep : (analyze_step o st k).types = st.types ++ [t] ∧
            (analyze_step o st k).sample_data.length =
              st.sample_data.length + 1 := by
          simp [analyze_step, ht, htt]
        constructor
        · rw [List.foldl_cons, (ih (analyze_step o st k)).1, hstep.1]
          simp [List.filterMap_cons, ht, callOk]
        · rw [List.foldl_cons, (ih (analyze_step o st k)).2, hstep.2]
          simp only [List.filter_cons, ht, htt, callOk, Option.isSome_some,
            Bool.and_self, if_pos, List.length_cons]
          omega

/-- C6 amended: a profiling exception never aborts the remaining samples:
every sampled key whose type call succeeds contributes its type to the
ValueShape histogram — including a key whose profiling then fails at the
TTL call — and exactly the keys whose type and TTL calls both succeed are
aggregated as sample records.  The histogram therefore excludes a failed
sample only when the failure occurred at the type-introspection step. -/
theorem histogram_counts_type_successes (o : StoreOracle) (pattern : String)
    (keys : List String) (sample_size : Nat) (r : PatternReport)
    (h : analyze_pattern o pattern keys sample_size = some r) :
    r.types = (sampledKeys keys sample_size).filterMap
        (fun k => callOk (o.typeOf k)) ∧
    r.sample_size = ((sampledKeys keys sample_size).filter
        (fun k =>
          (callOk (o.typeOf k)).isSome && (callOk (o.ttl k)).isSome)).length := by
  unfold analyze_pattern at h
  by_cases hk : keys.isEmpty
  · rw [if_pos hk] at h
    exact absurd h (by simp)
  · rw [if_neg hk] at h
    rw [← Option.some.inj h]
    have hf := foldl_analyze_step o (sampledKeys keys sample_size)
      ⟨[], [], 0, ⟨0, 0, 0⟩⟩
    exact ⟨by simpa using hf.1, by simpa using hf.2⟩

theorem histogram_counts_type_successes_witness :
    analyze_pattern ttlFailStore "p" ["a", "b"] 10 =
      some ((analyze_pattern ttlFailStore "p" ["a", "b"] 10).getD default) ∧
    ((analyze_pattern ttlFailStore "p" ["a", "b"] 10).getD default).types =
      (sampledKeys ["a", "b"] 10).filterMap
        (fun k => callOk (ttlFailStore.typeOf k)) := by
  have heq := eq_some_getD (analyze_pattern ttlFailStore "p" ["a", "b"] 10)
    default (by decide)
  exact ⟨heq,
    (histogram_counts_type_successes ttlFailStore "p" ["a", "b"] 10 _ heq).1⟩

/-- C7: `_get_sample_value` never propagates a failure: for a scalar
("string") value it attempts the JSON decode first and on decode failure
degrades to a truncated raw preview, and for every declared shape a
raising store call yields an error record instead of an exception. -/
theorem sample_value_never_raises (o : StoreOracle) (key : String) :
    (∀ value e, o.get key = .ok value → o.jsonLoads value = .error e →
      get_sample_value o key "string" =
        .stringPreview (pySlice (pyStr value) 200)) ∧
    (∀ e, o.get key = .error e →
      get_sample_value o key "string" = .errRecord "string" e) ∧
    (∀ e, o.hgetall key = .error e →
      get_sample_value o key "hash" = .errRecord "hash" e) ∧
    (∀ e, o.llen key = .error e →
      get_sample_value o key "list" = .errRecord "list" e) ∧
    (∀ e, o.scard key = .error e →
      get_sample_value o key "set" = .errRecord "set" e) ∧
    (∀ e, o.zcard key = .error e →
      get_sample_value o key "zset" = .errRecord "zset" e) ∧
    (∀ e, o.xlen key = .error e →
      get_sample_value o key "stream" = .errRecord "stream" e) := by
  refine ⟨fun value e hget hjson => ?_, fun e h => ?_, fun e h => ?_,
    fun e h => ?_, fun e h => ?_, fun e h => ?_, fun e h => ?_⟩
  · simp [get_sample_value, hget, hjson]
  · simp [get_sample_value, h]
  · simp [get_sample_value, h]
  · simp [get_sample_value, h]
  · simp [get_sample_value, h]
  · simp [get_sample_value, h]
  · simp [get_sample_value, h]

theorem sample_value_never_raises_witness :
    get_sample_value getFailStore "k" "string" =
      .errRecord "string" "connection reset" :=
  (sample_value_never_raises getFailStore "k").2.1 "connection reset" rfl

end RedisKeyAnalyzer
